import Mathlib

/-!
# mstdn: a shallow embedding of `main.go`

The program is a thin command-line client: it loads a JSON config, authenticates,
chooses one action from its flags, calls the Mastodon client library and prints
lines of text.  Everything it does is an effect, so a run is modelled as the list
of effects it performs (`Event`) together with the way it ends (`Exit`).

The external collaborators (environment variables, the file system, the JSON
lexer, the HTML parser, the colour library and the remote API) are the fields of
`Env`; the program's own control flow is translated function by function.
-/

namespace Mstdn

/-! ## Data model -/

/-- The `config` struct (`main.go`, lines 21-27). -/
structure config where
  UserName : String
  Password : String
  Server : String
  ClientID : String
  ClientSecret : String
deriving DecidableEq, Repr

/-- The four flag variables `public`, `local`, `user`, `notification`
(`main.go`, lines 29-34) as they stand after `flag.Parse`. -/
structure Flags where
  public : Bool
  local_ : Bool
  user : String
  notification : Bool
deriving DecidableEq, Repr

/-- The civil date and time a `time.Time` shows in its own location: the fields
`Format` reads. -/
structure Time where
  year : Int
  month : Nat
  day : Nat
  hour : Nat
  minute : Nat
  second : Nat
deriving DecidableEq, Repr

/-- The fields of `mastodon.Account` the program reads. -/
structure Account where
  ID : String
  Username : String
  Acct : String
deriving DecidableEq, Repr

/-- The fields of `mastodon.Status` the program reads. -/
structure Status where
  ID : String
  CreatedAt : Time
  Content : String
  Account : Account
deriving DecidableEq, Repr

/-- The fields of `mastodon.Notification` the program reads; `Status` is a
pointer that may be nil. -/
structure Notification where
  Type_ : String
  CreatedAt : Time
  Account : Account
  Status : Option Status
deriving DecidableEq, Repr

/-- The `mastodon.Config` handed to `mastodon.NewClient` (lines 53-57). -/
structure Client where
  Server : String
  ClientID : String
  ClientSecret : String
deriving DecidableEq, Repr

/-- The colour attributes the program passes to `color.Set`. -/
inductive Attribute where
  | FgBlue
  | FgYellow
  | Reset
deriving DecidableEq, Repr

/-! ## Parsed HTML -/

/-- A node of a parsed HTML tree below the document root.  Only elements have
children; attributes are left out because neither the selector `"p"` nor `Text`
reads them. -/
inductive Node where
  | element (tag : String) (children : List Node)
  | text (data : String)
  | comment (data : String)
  | doctype (name : String)
deriving Repr

/-- A parsed HTML document: the children of the document root. -/
structure Document where
  children : List Node
deriving Repr

/-- A parsed JSON value, as far as the config decoder looks at it. -/
inductive JSON where
  | null
  | bool (b : Bool)
  | number (literal : String)
  | str (s : String)
  | array (items : List JSON)
  | object (members : List (String × JSON))

/-! ## The outside world -/

/-- Everything the program obtains from outside itself.  Errors are carried as
their message text. -/
structure Env where
  /-- The call `os.Getenv`. -/
  getenv : String → String
  /-- The constant `runtime.GOOS`. -/
  GOOS : String
  /-- The call `filepath.Join` on its list of elements. -/
  filepathJoin : List String → String
  /-- The call `os.Open`: the content of the file, or the open error. -/
  openFile : String → Except String String
  /-- The lexical half of `json.Decoder.Decode`: the first JSON value of the
  input, or the syntax error. -/
  jsonValue : String → Except String JSON
  /-- The case-insensitive comparison `encoding/json` falls back to when an
  object key equals no field tag exactly: `foldEq tag key`. -/
  foldEq : String → String → Bool
  /-- The call `goquery.NewDocumentFromReader` on the text of a body. -/
  parseHTML : String → Except String Document
  /-- The bytes `color.Set` writes to standard output for an attribute: the
  escape sequence, or nothing when colour output is switched off. -/
  colorSet : Attribute → String
  /-- The call `Client.Authenticate`: `none` is a nil error. -/
  Authenticate : Client → String → String → Option String
  GetTimelineHome : Client → Except String (List Status)
  GetTimelinePublic : Client → Bool → Except String (List Status)
  AccountsSearch : Client → String → Nat → Except String (List Account)
  GetAccountStatuses : Client → String → Except String (List Status)
  GetNotifications : Client → Except String (List Notification)
  PostStatus : Client → String → Except String Status

/-! ## Runs -/

/-- One effect of the program, in the order the source performs them. -/
inductive Event where
  | openFile (path : String)
  | jsonDecode (content : String)
  | newClient (c : Client)
  | authenticate (userName password : String)
  | getTimelineHome
  | getTimelinePublic (isLocal : Bool)
  | accountsSearch (q : String) (limit : Nat)
  | getAccountStatuses (id : String)
  | getNotifications
  | postStatus (status : String)
  | print (s : String)
  | println (s : String)
  | colorSet (a : Attribute)
deriving DecidableEq, Repr

/-- How a run ends: normally, through `log.Fatal` (message, exit status 1), or
through a runtime panic. -/
inductive Exit where
  | ok
  | fatal (msg : String)
  | panic (msg : String)
deriving DecidableEq, Repr

/-- A run: the effects performed and the way it ended. -/
structure Run where
  events : List Event
  exit : Exit
deriving DecidableEq, Repr

/-- Sequencing: `k` runs only when `r` ended normally. -/
def Run.andThen (r k : Run) : Run :=
  match r.exit with
  | .ok => ⟨r.events ++ k.events, k.exit⟩
  | _ => r

/-- A run that performs the given effects and goes on. -/
def Run.emit (es : List Event) : Run := ⟨es, .ok⟩

/-! ## Time formatting -/

/-- The constant `TimeLayout` (line 19). -/
def TimeLayout : String := "2006-01-02 15:04"

/-- Decimal digits of `x`, zero-padded to `width`, with a leading `-` for a
negative number: what `time.Format` writes for a numeric field. -/
def appendInt (x : Int) (width : Nat) : String :=
  let ds := Nat.toDigits 10 x.natAbs
  let body := String.mk (List.replicate (width - ds.length) '0' ++ ds)
  if x < 0 then "-" ++ body else body

/-- The call `t.Format(TimeLayout)`: the layout `2006-01-02 15:04` is year (4),
`-`, month (2), `-`, day (2), space, hour (2), `:`, minute (2). -/
def Time.Format (t : Time) : String :=
  appendInt t.year 4 ++ "-" ++ appendInt t.month 2 ++ "-" ++ appendInt t.day 2
    ++ " " ++ appendInt t.hour 2 ++ ":" ++ appendInt t.minute 2

/-! ## The content renderer: `doc.Find("p").Each(... s.Text() ...)` -/

mutual
/-- The selector's `MatchAll` on one node: the node itself when it is an
element with the given tag, then the matches below it, child by child. -/
def Node.matchAll (tag : String) : Node → List Node
  | .element t cs =>
      (if t = tag then [Node.element t cs] else []) ++ Node.matchAllList tag cs
  | _ => []
/-- The same over a list of siblings, left to right. -/
def Node.matchAllList (tag : String) : List Node → List Node
  | [] => []
  | c :: cs => Node.matchAll tag c ++ Node.matchAllList tag cs
end

mutual
/-- The call `Text` on a single node: the data of every text node at or below
it, in order. -/
def Node.Text : Node → String
  | .element _ cs => Node.TextList cs
  | .text d => d
  | _ => ""
/-- The same over a list of siblings. -/
def Node.TextList : List Node → String
  | [] => ""
  | c :: cs => Node.Text c ++ Node.TextList cs
end

/-- The call `doc.Find(tag)`: the matches among the descendants of the document
root, found by running `MatchAll` on each element child of the root. -/
def Document.Find (doc : Document) (tag : String) : List Node :=
  Node.matchAllList tag doc.children

/-- The texts the callback of `doc.Find("p").Each` receives, in call order. -/
def Document.paragraphs (doc : Document) : List String :=
  (doc.Find "p").map Node.Text

/-! ## Printing -/

/-- The body of the callback in `showStatuses` (lines 104-109) for the post `st`
and the selection text `text`. -/
def statusLine (st : Status) (text : String) : List Event :=
  [ .print (st.CreatedAt.Format ++ " "),
    .colorSet .FgBlue,
    .print (st.Account.Username ++ " "),
    .colorSet .Reset,
    .println text ]

/-- One iteration of the loop in `showStatuses` (lines 97-110): parse the body,
stop through `log.Fatal` on a parse error, else run the callback on every
selected paragraph. -/
def showStatus (env : Env) (st : Status) : Run :=
  match env.parseHTML st.Content with
  | .error e => ⟨[], .fatal e⟩
  | .ok doc => Run.emit (doc.paragraphs.flatMap (statusLine st))

/-- The loop of `showStatuses` with `n = i + 1` iterations left: it handles
`timeline[i]` and goes on with `i - 1` (line 96). -/
def showStatusesLoop (env : Env) (timeline : List Status) : Nat → Run
  | 0 => Run.emit []
  | i + 1 =>
    match timeline[i]? with
    | none => ⟨[], .panic "index out of range"⟩
    | some st => (showStatus env st).andThen (showStatusesLoop env timeline i)

/-- The function `showStatuses` (lines 95-112). -/
def showStatuses (env : Env) (timeline : List Status) : Run :=
  showStatusesLoop env timeline timeline.length

/-- The bytes an effect puts on standard output. -/
def Event.stdout (env : Env) : Event → String
  | .print s => s
  | .println s => s ++ "\n"
  | .colorSet a => env.colorSet a
  | _ => ""

/-- The bytes a list of effects puts on standard output, in order. -/
def stdout (env : Env) : List Event → String
  | [] => ""
  | e :: es => e.stdout env ++ stdout env es

/-- The number of `fmt.Println` calls among the effects: the lines printed. -/
def lineCount (es : List Event) : Nat :=
  es.countP (fun e => match e with | .println _ => true | _ => false)

/-! ## The actions -/

/-- The function `showTimelineHome` (lines 79-85). -/
def showTimelineHome (env : Env) (c : Client) : Run :=
  match env.GetTimelineHome c with
  | .error e => ⟨[.getTimelineHome], .fatal e⟩
  | .ok tl => (Run.emit [.getTimelineHome]).andThen (showStatuses env tl)

/-- The function `showTimelinePublic` (lines 87-93). -/
def showTimelinePublic (env : Env) (c : Client) (isLocal : Bool) : Run :=
  match env.GetTimelinePublic c isLocal with
  | .error e => ⟨[.getTimelinePublic isLocal], .fatal e⟩
  | .ok tl => (Run.emit [.getTimelinePublic isLocal]).andThen (showStatuses env tl)

/-- The function `toot` (lines 114-122); `fmt.Println("toot!:", st.ID)` writes
its two operands with one space between them. -/
def toot (env : Env) (c : Client) (status : String) : Run :=
  match env.PostStatus c status with
  | .error e => ⟨[.postStatus status], .fatal e⟩
  | .ok st => Run.emit [.postStatus status, .println ("toot!: " ++ st.ID)]

/-- The body of the callback in `showNotification` (lines 137-143) for the
notification `n` and the selection text `text`. -/
def notificationLine (n : Notification) (text : String) : List Event :=
  [ .print n.CreatedAt.Format,
    .colorSet .FgBlue,
    .print (" " ++ n.Account.Acct),
    .colorSet .FgYellow,
    .print (" " ++ n.Type_),
    .colorSet .Reset,
    .println (" " ++ text) ]

/-- One iteration of the loop in `showNotification` (lines 130-145). -/
def showNotificationItem (env : Env) (n : Notification) : Run :=
  match n.Status with
  | none => Run.emit []
  | some st =>
    match env.parseHTML st.Content with
    | .error e => ⟨[], .fatal e⟩
    | .ok doc => Run.emit (doc.paragraphs.flatMap (notificationLine n))

/-- The loop `for _, n := range notifications` (line 129). -/
def showNotificationLoop (env : Env) : List Notification → Run
  | [] => Run.emit []
  | n :: ns => (showNotificationItem env n).andThen (showNotificationLoop env ns)

/-- The function `showNotification` (lines 124-147). -/
def showNotification (env : Env) (c : Client) : Run :=
  match env.GetNotifications c with
  | .error e => ⟨[.getNotifications], .fatal e⟩
  | .ok ns => (Run.emit [.getNotifications]).andThen (showNotificationLoop env ns)

/-- The function `showUserStatuses` (lines 149-159); `users[0]` on an empty
slice is a runtime panic. -/
def showUserStatuses (env : Env) (c : Client) (username : String) : Run :=
  match env.AccountsSearch c username 1 with
  | .error e => ⟨[.accountsSearch username 1], .fatal e⟩
  | .ok users =>
    match users[0]? with
    | none =>
      ⟨[.accountsSearch username 1],
        .panic "runtime error: index out of range [0] with length 0"⟩
    | some u =>
      match env.GetAccountStatuses c u.ID with
      | .error e => ⟨[.accountsSearch username 1, .getAccountStatuses u.ID], .fatal e⟩
      | .ok statuses =>
        (Run.emit [.accountsSearch username 1, .getAccountStatuses u.ID]).andThen
          (showStatuses env statuses)

/-! ## The config loader -/

/-- The five fields of `config`. -/
inductive Field where
  | UserName
  | Password
  | Server
  | ClientID
  | ClientSecret
deriving DecidableEq, Repr

/-- The `json:"..."` tag of each field (lines 22-26). -/
def Field.tag : Field → String
  | .UserName => "user_name"
  | .Password => "password"
  | .Server => "server"
  | .ClientID => "client_id"
  | .ClientSecret => "client_secret"

/-- The fields in declaration order. -/
def Field.all : List Field :=
  [.UserName, .Password, .Server, .ClientID, .ClientSecret]

/-- Assignment to one field. -/
def config.set (cfg : config) : Field → String → config
  | .UserName, s => { cfg with UserName := s }
  | .Password, s => { cfg with Password := s }
  | .Server, s => { cfg with Server := s }
  | .ClientID, s => { cfg with ClientID := s }
  | .ClientSecret, s => { cfg with ClientSecret := s }

/-- Reading one field. -/
def config.get (cfg : config) : Field → String
  | .UserName => cfg.UserName
  | .Password => cfg.Password
  | .Server => cfg.Server
  | .ClientID => cfg.ClientID
  | .ClientSecret => cfg.ClientSecret

/-- The value of `var cfg config` (line 173): every field is the empty string. -/
def config.zero : config := ⟨"", "", "", "", ""⟩

/-- The field an object key is decoded into: the field whose tag equals the key,
else the first field whose tag matches it case-insensitively, else none. -/
def fieldFor (env : Env) (key : String) : Option Field :=
  match Field.all.find? (fun f => f.tag = key) with
  | some f => some f
  | none => Field.all.find? (fun f => env.foldEq f.tag key)

/-- The word the decoder's type error uses for a JSON value. -/
def JSON.kind : JSON → String
  | .null => "null"
  | .bool _ => "bool"
  | .number _ => "number"
  | .str _ => "string"
  | .array _ => "array"
  | .object _ => "object"

/-- The message of the decoder's type error for a value met at a string field. -/
def typeError (v : JSON) (f : Field) : String :=
  "json: cannot unmarshal " ++ v.kind ++ " into Go struct field config." ++ f.tag
    ++ " of type string"

/-- Decoding one object member into the struct: an unknown key is skipped, a
string is stored, `null` leaves the field alone, and any other value records a
type error (the first one is kept) and decoding goes on. -/
def decodeMember (env : Env) (acc : config × Option String) (m : String × JSON) :
    config × Option String :=
  match fieldFor env m.1 with
  | none => acc
  | some f =>
    match m.2 with
    | .str s => (acc.1.set f s, acc.2)
    | .null => acc
    | v => (acc.1, match acc.2 with | some e => some e | none => some (typeError v f))

/-- Decoding a JSON value into a zero `config`. -/
def unmarshal (env : Env) : JSON → config × Option String
  | .object ms => ms.foldl (decodeMember env) (config.zero, none)
  | .null => (config.zero, none)
  | v => (config.zero,
      some ("json: cannot unmarshal " ++ v.kind ++ " into Go value of type main.config"))

/-- The call `json.NewDecoder(f).Decode(&cfg)` (line 174) on the content of the
file: the struct after the call and the error (`none` is nil). -/
def jsonDecode (env : Env) (content : String) : config × Option String :=
  match env.jsonValue content with
  | .error e => (config.zero, some e)
  | .ok v => unmarshal env v

/-- The path `fname` (lines 162-166). -/
def configPath (env : Env) : String :=
  let home := env.getenv "HOME"
  let home := if home = "" ∧ env.GOOS = "windows" then env.getenv "APPDATA" else home
  env.filepathJoin [home, ".config", "mstdn", "config.json"]

/-- What `loadConfig` hands back: its effects, the config pointer (`none` is
nil) and the error (`none` is nil). -/
structure Loaded where
  events : List Event
  cfg : Option config
  err : Option String
deriving DecidableEq, Repr

/-- The function `loadConfig` (lines 161-176). -/
def loadConfig (env : Env) : Loaded :=
  match env.openFile (configPath env) with
  | .error e => ⟨[.openFile (configPath env)], none, some e⟩
  | .ok content =>
    let r := jsonDecode env content
    ⟨[.openFile (configPath env), .jsonDecode content], some r.1, r.2⟩

/-! ## The dispatcher -/

/-- The condition chain of `main` (lines 64-76) on the parsed flags and the
positional arguments; `strings.Join(flag.Args(), " ")` is `String.intercalate`. -/
def dispatch (env : Env) (c : Client) (fl : Flags) (args : List String) : Run :=
  if fl.public then showTimelinePublic env c false
  else if fl.local_ then showTimelinePublic env c true
  else if fl.user ≠ "" then showUserStatuses env c fl.user
  else if fl.notification then showNotification env c
  else if args.length = 0 then showTimelineHome env c
  else toot env c (String.intercalate " " args)

/-- The client `main` builds from a config (lines 53-57). -/
def clientOf (cfg : config) : Client := ⟨cfg.Server, cfg.ClientID, cfg.ClientSecret⟩

/-- The function `main` (lines 36-77) after `flag.Parse`.  `log.Fatal` joins the
text `loadConfig error:` and the error without a space. -/
def main (env : Env) (fl : Flags) (args : List String) : Run :=
  let r := loadConfig env
  match r.err with
  | some e => ⟨r.events, .fatal ("loadConfig error:" ++ e)⟩
  | none =>
    match r.cfg with
    | none => ⟨r.events, .panic "runtime error: invalid memory address or nil pointer dereference"⟩
    | some cfg =>
      let c := clientOf cfg
      let pre := r.events ++ [.newClient c, .authenticate cfg.UserName cfg.Password]
      match env.Authenticate c cfg.UserName cfg.Password with
      | some e => ⟨pre, .fatal e⟩
      | none => (Run.emit pre).andThen (dispatch env c fl args)

/-! ## Vocabulary of the properties -/

/-- The effects that are requests to the remote API through the client. -/
def Event.isApiCall : Event → Bool
  | .getTimelineHome => true
  | .getTimelinePublic _ => true
  | .accountsSearch _ _ => true
  | .getAccountStatuses _ => true
  | .getNotifications => true
  | .postStatus _ => true
  | _ => false

/-- The effects that write to standard output. -/
def Event.isOutput : Event → Bool
  | .print _ => true
  | .println _ => true
  | .colorSet _ => true
  | _ => false

mutual
/-- A node followed by every node below it, in document order. -/
def Node.nodes : Node → List Node
  | .element t cs => Node.element t cs :: Node.nodesList cs
  | .text d => [Node.text d]
  | .comment d => [Node.comment d]
  | .doctype d => [Node.doctype d]
/-- The same over a list of siblings. -/
def Node.nodesList : List Node → List Node
  | [] => []
  | c :: cs => Node.nodes c ++ Node.nodesList cs
end

/-- Whether a node is a `p` element. -/
def Node.isP : Node → Bool
  | .element t _ => decide (t = "p")
  | _ => false

/-- The `p` elements of a document, in document order. -/
def Document.pElements (doc : Document) : List Node :=
  (Node.nodesList doc.children).filter Node.isP

/-- The content renderer on a body: parse, select `p`, take each text. -/
def render (env : Env) (body : String) : Except String (List String) :=
  match env.parseHTML body with
  | .error e => .error e
  | .ok doc => .ok doc.paragraphs

/-- The paragraphs of a body that parses (none for one that does not). -/
def paragraphsOf (env : Env) (body : String) : List String :=
  match env.parseHTML body with
  | .error _ => []
  | .ok doc => doc.paragraphs

/-- The paragraphs a notification is printed with: those of its attached
status, none when it carries no status. -/
def notificationParagraphs (env : Env) (n : Notification) : List String :=
  match n.Status with
  | none => []
  | some st => paragraphsOf env st.Content

/-! ## A sample world -/

/-- The escape sequences `color.Set` writes when colour output is on. -/
def ansiColor : Attribute → String
  | .FgBlue => "\x1b[34m"
  | .FgYellow => "\x1b[33m"
  | .Reset => "\x1b[0m"

/-- A sample config. -/
def sampleConfig : config := ⟨"alice", "secret", "https://example.social", "id1", "key1"⟩

/-- The text of a config file holding `sampleConfig`. -/
def sampleConfigText : String :=
  "\x7b\"user_name\":\"alice\",\"password\":\"secret\",\"server\":\"https://example.social\","
    ++ "\"client_id\":\"id1\",\"client_secret\":\"key1\"\x7d"

/-- The members of the JSON object in `sampleConfigText`. -/
def sampleMembers : List (String × JSON) :=
  [("user_name", .str "alice"), ("password", .str "secret"),
   ("server", .str "https://example.social"), ("client_id", .str "id1"),
   ("client_secret", .str "key1")]

/-- The parse of the body `<p>hello</p>` as an HTML document. -/
def helloDoc : Document :=
  ⟨[.element "html" [.element "head" [], .element "body" [.element "p" [.text "hello"]]]]⟩

/-- A document with two paragraphs and text outside them. -/
def twoParagraphDoc : Document :=
  ⟨[.element "html" [.element "head" [],
      .element "body" [.element "p" [.text "one ", .element "b" [.text "bold"]],
        .text "loose", .element "div" [.element "p" [.text "two"]]]]]⟩

/-- A post by `alice` created at 2023-01-01T00:00:00Z with body `<p>hello</p>`. -/
def alicePost : Status :=
  ⟨"101", ⟨2023, 1, 1, 0, 0, 0⟩, "<p>hello</p>", ⟨"7", "alice", "alice@example.social"⟩⟩

/-- A post by `bob` whose body has two paragraphs. -/
def bobPost : Status :=
  ⟨"102", ⟨2023, 1, 2, 9, 5, 0⟩, "<p>one <b>bold</b></p>loose<div><p>two</p></div>",
    ⟨"8", "bob", "bob@example.social"⟩⟩

/-- A mention carrying `alicePost`, and a follow carrying no status. -/
def sampleNotifications : List Notification :=
  [⟨"mention", ⟨2023, 1, 3, 12, 30, 0⟩, ⟨"8", "bob", "bob@example.social"⟩, some alicePost⟩,
   ⟨"follow", ⟨2023, 1, 4, 8, 0, 0⟩, ⟨"7", "alice", "alice@example.social"⟩, none⟩]

/-- A world in which every call succeeds and colour output is off. -/
def sampleEnv : Env where
  getenv := fun k => if k = "HOME" then "/home/alice" else ""
  GOOS := "linux"
  filepathJoin := String.intercalate "/"
  openFile := fun path =>
    if path = "/home/alice/.config/mstdn/config.json" then .ok sampleConfigText
    else .error ("open " ++ path ++ ": no such file or directory")
  jsonValue := fun s =>
    if s = sampleConfigText then .ok (.object sampleMembers)
    else .error "invalid character"
  foldEq := fun _ _ => false
  parseHTML := fun body =>
    if body = "<p>hello</p>" then .ok helloDoc
    else if body = bobPost.Content then .ok twoParagraphDoc
    else .ok ⟨[.element "html" [.element "head" [], .element "body" [.text body]]]⟩
  colorSet := fun _ => ""
  Authenticate := fun _ _ _ => none
  GetTimelineHome := fun _ => .ok [alicePost]
  GetTimelinePublic := fun _ _ => .ok [bobPost, alicePost]
  AccountsSearch := fun _ q _ => if q = "bob" then .ok [bobPost.Account] else .ok []
  GetAccountStatuses := fun _ _ => .ok [bobPost]
  GetNotifications := fun _ => .ok sampleNotifications
  PostStatus := fun _ text => .ok ⟨"103", ⟨2023, 1, 5, 0, 0, 0⟩, text, alicePost.Account⟩

/-- The sample world with colour output on. -/
def colourEnv : Env := { sampleEnv with colorSet := ansiColor }

/-- The sample world without the config file. -/
def noFileEnv : Env :=
  { sampleEnv with openFile := fun path => .error ("open " ++ path ++ ": no such file or directory") }

/-- No flag set. -/
def noFlags : Flags := ⟨false, false, "", false⟩


/-! ## Sequencing and output lemmas -/

theorem Run.emit_andThen (es : List Event) (k : Run) :
    (Run.emit es).andThen k = ⟨es ++ k.events, k.exit⟩ := rfl

theorem Run.emit_andThen_emit (es fs : List Event) :
    (Run.emit es).andThen (Run.emit fs) = Run.emit (es ++ fs) := rfl

theorem stdout_append (env : Env) (es fs : List Event) :
    stdout env (es ++ fs) = stdout env es ++ stdout env fs := by
  induction es with
  | nil => simp [stdout]
  | cons e es ih => simp [stdout, ih, String.append_assoc]

theorem lineCount_append (es fs : List Event) :
    lineCount (es ++ fs) = lineCount es + lineCount fs := by
  simp [lineCount, List.countP_append]

theorem lineCount_flatMap {α : Type} (f : α → List Event) (l : List α) :
    lineCount (l.flatMap f) = (l.map (fun a => lineCount (f a))).sum := by
  induction l with
  | nil => rfl
  | cons a l ih => simp [List.flatMap_cons, lineCount_append, ih]

theorem lineCount_statusLine (st : Status) (text : String) :
    lineCount (statusLine st text) = 1 := by
  simp [lineCount, statusLine, List.countP_cons]

theorem lineCount_notificationLine (n : Notification) (text : String) :
    lineCount (notificationLine n text) = 1 := by
  simp [lineCount, notificationLine, List.countP_cons]

theorem lineCount_paragraphs {α : Type} (f : α → String → List Event) (a : α)
    (h : ∀ t, lineCount (f a t) = 1) (ps : List String) :
    lineCount (ps.flatMap (f a)) = ps.length := by
  induction ps with
  | nil => rfl
  | cons t ps ih => simp [List.flatMap_cons, lineCount_append, ih, h, Nat.add_comm]

/-! ## The renderer against document order -/

mutual
theorem Node.matchAll_eq_filter (n : Node) :
    Node.matchAll "p" n = (Node.nodes n).filter Node.isP := by
  cases n with
  | element t cs =>
    have ih := Node.matchAllList_eq_filter cs
    by_cases h : t = "p"
    · simp [Node.matchAll, Node.nodes, Node.isP, List.filter_cons, h, ih]
    · simp [Node.matchAll, Node.nodes, Node.isP, List.filter_cons, h, ih]
  | text d => simp [Node.matchAll, Node.nodes, Node.isP]
  | comment d => simp [Node.matchAll, Node.nodes, Node.isP]
  | doctype d => simp [Node.matchAll, Node.nodes, Node.isP]
theorem Node.matchAllList_eq_filter (cs : List Node) :
    Node.matchAllList "p" cs = (Node.nodesList cs).filter Node.isP := by
  cases cs with
  | nil => simp [Node.matchAllList, Node.nodesList]
  | cons c cs =>
    have h1 := Node.matchAll_eq_filter c
    have h2 := Node.matchAllList_eq_filter cs
    simp [Node.matchAllList, Node.nodesList, List.filter_append, h1, h2]
end

theorem Document.paragraphs_eq (doc : Document) :
    doc.paragraphs = doc.pElements.map Node.Text := by
  simp [Document.paragraphs, Document.Find, Document.pElements, Node.matchAllList_eq_filter]

/-! ## The timeline printer -/

theorem showStatus_of_parse (env : Env) (st : Status) (doc : Document)
    (h : env.parseHTML st.Content = .ok doc) :
    showStatus env st = Run.emit ((paragraphsOf env st.Content).flatMap (statusLine st)) := by
  simp [showStatus, paragraphsOf, h]

theorem showStatusesLoop_of_parse (env : Env) (timeline : List Status)
    (h : ∀ st ∈ timeline, ∃ doc, env.parseHTML st.Content = .ok doc) :
    ∀ n, n ≤ timeline.length →
      showStatusesLoop env timeline n =
        Run.emit ((timeline.take n).reverse.flatMap
          (fun st => (paragraphsOf env st.Content).flatMap (statusLine st))) := by
  intro n
  induction n with
  | zero => intro _; simp [showStatusesLoop]
  | succ i ih =>
    intro hi
    have hlt : i < timeline.length := hi
    have hget : timeline[i]? = some timeline[i] := List.getElem?_eq_getElem hlt
    obtain ⟨doc, hdoc⟩ := h timeline[i] (List.getElem_mem hlt)
    rw [showStatusesLoop, hget]
    simp only []
    rw [showStatus_of_parse env _ doc hdoc, ih (Nat.le_of_lt hlt), Run.emit_andThen_emit]
    have ht : List.take (i + 1) timeline = List.take i timeline ++ [timeline[i]] := by
      rw [List.take_succ, hget]; rfl
    rw [ht, List.reverse_append]
    rfl

theorem showStatuses_of_parse (env : Env) (timeline : List Status)
    (h : ∀ st ∈ timeline, ∃ doc, env.parseHTML st.Content = .ok doc) :
    showStatuses env timeline =
      Run.emit (timeline.reverse.flatMap
        (fun st => (paragraphsOf env st.Content).flatMap (statusLine st))) := by
  have := showStatusesLoop_of_parse env timeline h timeline.length (Nat.le_refl _)
  simpa [showStatuses] using this

theorem sum_map_reverse {α : Type} (f : α → Nat) (l : List α) :
    (l.reverse.map f).sum = (l.map f).sum := by
  induction l with
  | nil => rfl
  | cons a l ih =>
    rw [List.reverse_cons, List.map_append, List.sum_append, ih]
    simp [Nat.add_comm]

/-! ## C10: the content renderer -/

/-- C10: for a body that parses to a document with N `p` elements, the renderer
(parse, select `p`, take each selection's text) yields exactly N lines, in
document order, each the text content of the corresponding `p` element; with no
`p` element it yields no line; and the callbacks of `showStatuses` and
`showNotification` run once for each of those texts, in that order. -/
theorem render_p_elements (env : Env) (body : String) (doc : Document)
    (h : env.parseHTML body = .ok doc) :
    render env body = .ok (doc.pElements.map Node.Text)
    ∧ (∀ N, doc.pElements.length = N →
        ∃ lines, render env body = .ok lines ∧ lines.length = N
          ∧ ∀ i (hi : i < lines.length) (hp : i < doc.pElements.length),
              lines[i] = Node.Text doc.pElements[i])
    ∧ (doc.pElements = [] → render env body = .ok [])
    ∧ (∀ st : Status, st.Content = body →
        showStatus env st = Run.emit ((doc.pElements.map Node.Text).flatMap (statusLine st)))
    ∧ (∀ (n : Notification) (st : Status), n.Status = some st → st.Content = body →
        showNotificationItem env n =
          Run.emit ((doc.pElements.map Node.Text).flatMap (notificationLine n))) := by
  have hr : render env body = .ok (doc.pElements.map Node.Text) := by
    simp [render, h, Document.paragraphs_eq]
  refine ⟨hr, ?_, ?_, ?_, ?_⟩
  · intro N hN
    refine ⟨doc.pElements.map Node.Text, hr, by simp [hN], ?_⟩
    intro i hi hp
    simp
  · intro hnil
    simp [hr, hnil]
  · intro st hst
    subst hst
    simp [showStatus, h, Document.paragraphs_eq]
  · intro n st hn hst
    subst hst
    simp [showNotificationItem, hn, h, Document.paragraphs_eq]

/-- C10 at the sample body with two paragraphs, one of them nested in a `div`. -/
theorem render_p_elements_witness :
    sampleEnv.parseHTML bobPost.Content = .ok twoParagraphDoc
    ∧ render sampleEnv bobPost.Content = .ok ["one bold", "two"] := by
  have h : sampleEnv.parseHTML bobPost.Content = .ok twoParagraphDoc := rfl
  refine ⟨h, ?_⟩
  have := (render_p_elements sampleEnv bobPost.Content twoParagraphDoc h).1
  rw [this]
  rfl

/-! ## C2: the timeline printer -/

/-- C2: when every body of the timeline parses, `showStatuses` ends normally
after printing the posts in reverse of the input order, each post giving one
line per paragraph of its body; the number of lines printed is the sum of the
paragraph counts, a post with no paragraph adds nothing, and the empty timeline
prints nothing. -/
theorem showStatuses_reverse_order (env : Env) (timeline : List Status)
    (h : ∀ st ∈ timeline, ∃ doc, env.parseHTML st.Content = .ok doc) :
    showStatuses env timeline =
      Run.emit (timeline.reverse.flatMap
        (fun st => (paragraphsOf env st.Content).flatMap (statusLine st)))
    ∧ lineCount (showStatuses env timeline).events =
        (timeline.map (fun st => (paragraphsOf env st.Content).length)).sum
    ∧ (∀ st, paragraphsOf env st.Content = [] →
        (paragraphsOf env st.Content).flatMap (statusLine st) = [])
    ∧ showStatuses env [] = Run.emit [] := by
  have heq := showStatuses_of_parse env timeline h
  refine ⟨heq, ?_, ?_, ?_⟩
  · rw [heq]
    simp only [Run.emit]
    rw [lineCount_flatMap, sum_map_reverse]
    congr 1
    apply List.map_congr_left
    intro st _
    exact lineCount_paragraphs statusLine st (lineCount_statusLine st) _
  · intro st hst
    simp [hst]
  · rfl

/-- C2 on the sample public timeline `[bobPost, alicePost]`: the line of
`alicePost` comes first, then the two lines of `bobPost`. -/
theorem showStatuses_reverse_order_witness :
    stdout sampleEnv (showStatuses sampleEnv [bobPost, alicePost]).events =
      "2023-01-01 00:00 alice hello\n2023-01-02 09:05 bob one bold\n2023-01-02 09:05 bob two\n"
    ∧ lineCount (showStatuses sampleEnv [bobPost, alicePost]).events = 3 := by
  have h : ∀ st ∈ [bobPost, alicePost], ∃ doc, sampleEnv.parseHTML st.Content = .ok doc := by
    intro st hst
    simp only [List.mem_cons, List.mem_singleton, List.not_mem_nil, or_false] at hst
    rcases hst with rfl | rfl
    · exact ⟨twoParagraphDoc, rfl⟩
    · exact ⟨helloDoc, rfl⟩
  have := showStatuses_reverse_order sampleEnv [bobPost, alicePost] h
  rw [this.1]
  decide

/-! ## From `main` to the dispatcher -/

theorem stdout_loadConfig (env : Env) : stdout env (loadConfig env).events = "" := by
  unfold loadConfig
  cases env.openFile (configPath env) <;> rfl

theorem main_of_load_auth (env : Env) (fl : Flags) (args : List String) (cfg : config)
    (hcfg : (loadConfig env).cfg = some cfg) (herr : (loadConfig env).err = none)
    (hauth : env.Authenticate (clientOf cfg) cfg.UserName cfg.Password = none) :
    main env fl args =
      (Run.emit ((loadConfig env).events ++
        [.newClient (clientOf cfg), .authenticate cfg.UserName cfg.Password])).andThen
        (dispatch env (clientOf cfg) fl args) := by
  simp [main, hcfg, herr, hauth]

theorem stdout_main_of_load_auth (env : Env) (fl : Flags) (args : List String) (cfg : config)
    (hcfg : (loadConfig env).cfg = some cfg) (herr : (loadConfig env).err = none)
    (hauth : env.Authenticate (clientOf cfg) cfg.UserName cfg.Password = none) :
    stdout env (main env fl args).events =
      stdout env (dispatch env (clientOf cfg) fl args).events := by
  rw [main_of_load_auth env fl args cfg hcfg herr hauth, Run.emit_andThen]
  simp [stdout_append, stdout_loadConfig, stdout, Event.stdout]

/-! ## C3: the line of a post -/

/-- C3 (amended): for every post and every paragraph of its body the bytes
`showStatuses` writes are the creation time as `YYYY-MM-DD HH:MM`, a space, what
`color.Set(FgBlue)` writes, the username, a space, what `color.Set(Reset)`
writes, the paragraph text and a newline; when the colour library writes nothing
this is time, space, username, space, text, newline; and for a home timeline
holding the single post `<p>hello</p>` by `alice` created 2023-01-01T00:00:00Z
the whole output is `2023-01-01 00:00 `, blue, `alice `, reset, `hello`, newline. -/
theorem statusLine_stdout (env : Env) (st : Status) (text : String) :
    stdout env (statusLine st text) =
      st.CreatedAt.Format ++ " " ++ env.colorSet .FgBlue ++ st.Account.Username ++ " "
        ++ env.colorSet .Reset ++ text ++ "\n"
    ∧ (env.colorSet .FgBlue = "" → env.colorSet .Reset = "" →
        stdout env (statusLine st text) =
          st.CreatedAt.Format ++ " " ++ st.Account.Username ++ " " ++ text ++ "\n")
    ∧ (∀ cfg, (loadConfig env).cfg = some cfg → (loadConfig env).err = none →
        env.Authenticate (clientOf cfg) cfg.UserName cfg.Password = none →
        env.GetTimelineHome (clientOf cfg) = .ok [alicePost] →
        env.parseHTML "<p>hello</p>" = .ok helloDoc →
        stdout env (main env noFlags []).events =
          "2023-01-01 00:00 " ++ env.colorSet .FgBlue ++ "alice " ++ env.colorSet .Reset
            ++ "hello\n") := by
  have h1 : ∀ (st : Status) (text : String), stdout env (statusLine st text) =
      st.CreatedAt.Format ++ " " ++ env.colorSet .FgBlue ++ st.Account.Username ++ " "
        ++ env.colorSet .Reset ++ text ++ "\n" := by
    intro st text
    simp [statusLine, stdout, Event.stdout, String.append_assoc]
  refine ⟨h1 st text, ?_, ?_⟩
  · intro hb hr
    rw [h1, hb, hr]
    simp [String.append_assoc]
  · intro cfg hcfg herr hauth htl hparse
    rw [stdout_main_of_load_auth env noFlags [] cfg hcfg herr hauth]
    have hd : dispatch env (clientOf cfg) noFlags [] = showTimelineHome env (clientOf cfg) := by
      simp [dispatch, noFlags]
    have hs : showStatuses env [alicePost] =
        Run.emit (statusLine alicePost "hello") := by
      simp [showStatuses, showStatusesLoop, showStatus, alicePost, hparse, helloDoc,
        Document.paragraphs, Document.Find, Node.matchAllList, Node.matchAll, Node.Text,
        Node.TextList, Run.emit, Run.andThen]
    have hh : showTimelineHome env (clientOf cfg) =
        (Run.emit [.getTimelineHome]).andThen (showStatuses env [alicePost]) := by
      simp [showTimelineHome, htl]
    rw [hd, hh, hs, Run.emit_andThen_emit]
    simp only [Run.emit, List.singleton_append]
    have hfmt : alicePost.CreatedAt.Format = "2023-01-01 00:00" := by decide
    have huser : alicePost.Account.Username = "alice" := rfl
    have hcons : ∀ (e : Event) (es : List Event),
        stdout env (e :: es) = e.stdout env ++ stdout env es := fun _ _ => rfl
    rw [hcons, h1, hfmt, huser]
    simp [Event.stdout, String.append_assoc]

/-- C3 (amended) in the sample world, where colour output is off: the whole
output of the home timeline is the plain line. -/
theorem statusLine_stdout_witness :
    stdout sampleEnv (main sampleEnv noFlags []).events = "2023-01-01 00:00 alice hello\n" := by
  have h := (statusLine_stdout sampleEnv alicePost "hello").2.2 sampleConfig
    (by decide) (by decide) (by decide) rfl rfl
  rw [h]
  decide

/-- C3 as stated fails when colour output is on: the bytes written for the home
timeline holding the single post by `alice` carry the two escape sequences. -/
theorem statusLine_colour_counterexample :
    stdout colourEnv (main colourEnv noFlags []).events
        = "2023-01-01 00:00 \x1b[34malice \x1b[0mhello\n"
    ∧ stdout colourEnv (main colourEnv noFlags []).events ≠ "2023-01-01 00:00 alice hello\n" := by
  decide

/-! ## C5: the notification printer -/

theorem showNotificationItem_of_parse (env : Env) (n : Notification)
    (h : ∀ st, n.Status = some st → ∃ doc, env.parseHTML st.Content = .ok doc) :
    showNotificationItem env n =
      Run.emit ((notificationParagraphs env n).flatMap (notificationLine n)) := by
  unfold showNotificationItem notificationParagraphs
  cases hs : n.Status with
  | none => rfl
  | some st =>
    obtain ⟨doc, hdoc⟩ := h st hs
    simp [paragraphsOf, hdoc]

theorem showNotificationLoop_of_parse (env : Env) (ns : List Notification)
    (h : ∀ n ∈ ns, ∀ st, n.Status = some st → ∃ doc, env.parseHTML st.Content = .ok doc) :
    showNotificationLoop env ns =
      Run.emit (ns.flatMap
        (fun n => (notificationParagraphs env n).flatMap (notificationLine n))) := by
  induction ns with
  | nil => rfl
  | cons n ns ih =>
    have hn := showNotificationItem_of_parse env n (h n (List.mem_cons_self n ns))
    have hrest := ih (fun m hm => h m (List.mem_cons_of_mem n hm))
    rw [showNotificationLoop, hn, hrest, Run.emit_andThen_emit, List.flatMap_cons]

/-- C5 (amended): when the notifications are fetched and every attached body
parses, `showNotification` visits them in the order returned; a notification
without a status prints nothing; one with a status prints one line per paragraph
of that status, whose bytes are the creation time as `YYYY-MM-DD HH:MM`, what
`color.Set(FgBlue)` writes, a space, the actor's `Acct`, what
`color.Set(FgYellow)` writes, a space, the type tag, what `color.Set(Reset)`
writes, a space, the paragraph text and a newline (time, space, `Acct`, space,
type, space, text, newline when the colour library writes nothing); the number
of lines is the sum of the paragraph counts of the notifications with a status. -/
theorem showNotification_lines (env : Env) (c : Client) (ns : List Notification)
    (hget : env.GetNotifications c = .ok ns)
    (h : ∀ n ∈ ns, ∀ st, n.Status = some st → ∃ doc, env.parseHTML st.Content = .ok doc) :
    showNotification env c =
      Run.emit (.getNotifications :: ns.flatMap
        (fun n => (notificationParagraphs env n).flatMap (notificationLine n)))
    ∧ (∀ n : Notification, n.Status = none → notificationParagraphs env n = [])
    ∧ (∀ (n : Notification) (text : String), stdout env (notificationLine n text) =
        n.CreatedAt.Format ++ env.colorSet .FgBlue ++ " " ++ n.Account.Acct
          ++ env.colorSet .FgYellow ++ " " ++ n.Type_ ++ env.colorSet .Reset ++ " " ++ text
          ++ "\n")
    ∧ ((∀ a, env.colorSet a = "") → ∀ (n : Notification) (text : String),
        stdout env (notificationLine n text) =
          n.CreatedAt.Format ++ " " ++ n.Account.Acct ++ " " ++ n.Type_ ++ " " ++ text ++ "\n")
    ∧ lineCount (showNotification env c).events =
        (ns.map (fun n => (notificationParagraphs env n).length)).sum := by
  have heq : showNotification env c =
      Run.emit (.getNotifications :: ns.flatMap
        (fun n => (notificationParagraphs env n).flatMap (notificationLine n))) := by
    simp [showNotification, hget, showNotificationLoop_of_parse env ns h, Run.emit_andThen_emit]
  have hline : ∀ (n : Notification) (text : String), stdout env (notificationLine n text) =
      n.CreatedAt.Format ++ env.colorSet .FgBlue ++ " " ++ n.Account.Acct
        ++ env.colorSet .FgYellow ++ " " ++ n.Type_ ++ env.colorSet .Reset ++ " " ++ text
        ++ "\n" := by
    intro n text
    simp [notificationLine, stdout, Event.stdout, String.append_assoc]
  refine ⟨heq, ?_, hline, ?_, ?_⟩
  · intro n hn
    simp [notificationParagraphs, hn]
  · intro hoff n text
    rw [hline, hoff, hoff, hoff]
    simp [String.append_assoc]
  · rw [heq]
    simp only [Run.emit]
    have hc : lineCount (Event.getNotifications :: ns.flatMap
        (fun n => (notificationParagraphs env n).flatMap (notificationLine n))) =
        lineCount (ns.flatMap
          (fun n => (notificationParagraphs env n).flatMap (notificationLine n))) := by
      simp [lineCount, List.countP_cons]
    rw [hc, lineCount_flatMap]
    congr 1
    apply List.map_congr_left
    intro n _
    exact lineCount_paragraphs notificationLine n (lineCount_notificationLine n) _

/-- C5 (amended) in the sample world, where colour output is off: the mention
prints one plain line and the follow, which carries no status, prints none. -/
theorem showNotification_lines_witness :
    stdout sampleEnv (showNotification sampleEnv (clientOf sampleConfig)).events =
      "2023-01-03 12:30 bob@example.social mention hello\n"
    ∧ lineCount (showNotification sampleEnv (clientOf sampleConfig)).events = 1 := by
  have h : ∀ n ∈ sampleNotifications, ∀ st, n.Status = some st →
      ∃ doc, sampleEnv.parseHTML st.Content = .ok doc := by
    intro n hn st hst
    simp only [sampleNotifications, List.mem_cons, List.mem_singleton, List.not_mem_nil,
      or_false] at hn
    rcases hn with rfl | rfl
    · have hst2 : st = alicePost := (Option.some.inj hst).symm
      subst hst2
      exact ⟨helloDoc, rfl⟩
    · exact absurd hst (by simp)
  have := showNotification_lines sampleEnv (clientOf sampleConfig) sampleNotifications rfl h
  rw [this.1]
  decide

/-- C5 as stated fails when colour output is on: the line of the sample mention
carries the three escape sequences. -/
theorem notificationLine_colour_counterexample :
    stdout colourEnv (showNotification colourEnv (clientOf sampleConfig)).events
        = "2023-01-03 12:30\x1b[34m bob@example.social\x1b[33m mention\x1b[0m hello\n"
    ∧ stdout colourEnv (showNotification colourEnv (clientOf sampleConfig)).events
        ≠ "2023-01-03 12:30 bob@example.social mention hello\n" := by
  decide

/-! ## The shape of each action's effects -/

theorem Run.mem_andThen {r k : Run} {e : Event} (h : e ∈ (r.andThen k).events) :
    e ∈ r.events ∨ e ∈ k.events := by
  unfold Run.andThen at h
  cases hr : r.exit <;> simp only [hr] at h
  · exact List.mem_append.mp h
  · exact Or.inl h
  · exact Or.inl h

theorem statusLine_output (st : Status) (text : String) :
    ∀ e ∈ statusLine st text, e.isOutput = true := by
  intro e he
  simp only [statusLine, List.mem_cons, List.mem_singleton, List.not_mem_nil, or_false] at he
  rcases he with rfl | rfl | rfl | rfl | rfl <;> rfl

theorem notificationLine_output (n : Notification) (text : String) :
    ∀ e ∈ notificationLine n text, e.isOutput = true := by
  intro e he
  simp only [notificationLine, List.mem_cons, List.mem_singleton, List.not_mem_nil,
    or_false] at he
  rcases he with rfl | rfl | rfl | rfl | rfl | rfl | rfl <;> rfl

theorem showStatus_output (env : Env) (st : Status) :
    ∀ e ∈ (showStatus env st).events, e.isOutput = true := by
  intro e he
  unfold showStatus at he
  cases hp : env.parseHTML st.Content with
  | error err => simp [hp] at he
  | ok doc =>
    simp only [hp, Run.emit, List.mem_flatMap] at he
    obtain ⟨t, _, ht⟩ := he
    exact statusLine_output st t e ht

theorem showStatusesLoop_output (env : Env) (timeline : List Status) (n : Nat) :
    ∀ e ∈ (showStatusesLoop env timeline n).events, e.isOutput = true := by
  induction n with
  | zero => intro e he; simp [showStatusesLoop, Run.emit] at he
  | succ i ih =>
    intro e he
    unfold showStatusesLoop at he
    cases hg : timeline[i]? with
    | none => simp [hg] at he
    | some st =>
      simp only [hg] at he
      rcases Run.mem_andThen he with h1 | h2
      · exact showStatus_output env st e h1
      · exact ih e h2

theorem showStatuses_output (env : Env) (timeline : List Status) :
    ∀ e ∈ (showStatuses env timeline).events, e.isOutput = true :=
  showStatusesLoop_output env timeline timeline.length

theorem showNotificationItem_output (env : Env) (n : Notification) :
    ∀ e ∈ (showNotificationItem env n).events, e.isOutput = true := by
  intro e he
  unfold showNotificationItem at he
  cases hs : n.Status with
  | none => simp [hs, Run.emit] at he
  | some st =>
    simp only [hs] at he
    cases hp : env.parseHTML st.Content with
    | error err => simp [hp] at he
    | ok doc =>
      simp only [hp, Run.emit, List.mem_flatMap] at he
      obtain ⟨t, _, ht⟩ := he
      exact notificationLine_output n t e ht

theorem showNotificationLoop_output (env : Env) (ns : List Notification) :
    ∀ e ∈ (showNotificationLoop env ns).events, e.isOutput = true := by
  induction ns with
  | nil => intro e he; simp [showNotificationLoop, Run.emit] at he
  | cons n ns ih =>
    intro e he
    unfold showNotificationLoop at he
    rcases Run.mem_andThen he with h1 | h2
    · exact showNotificationItem_output env n e h1
    · exact ih e h2

theorem Run.emit_andThen_events (es : List Event) (k : Run) :
    ((Run.emit es).andThen k).events = es ++ k.events := rfl

theorem Run.emit_andThen_exit (es : List Event) (k : Run) :
    ((Run.emit es).andThen k).exit = k.exit := rfl

theorem showTimelinePublic_shape (env : Env) (c : Client) (isLocal : Bool) :
    ∃ out, (showTimelinePublic env c isLocal).events = [.getTimelinePublic isLocal] ++ out
      ∧ ∀ e ∈ out, e.isOutput = true := by
  unfold showTimelinePublic
  cases env.GetTimelinePublic c isLocal with
  | error err => exact ⟨[], rfl, by simp⟩
  | ok tl => exact ⟨(showStatuses env tl).events, rfl, showStatuses_output env tl⟩

theorem showTimelineHome_shape (env : Env) (c : Client) :
    ∃ out, (showTimelineHome env c).events = [.getTimelineHome] ++ out
      ∧ ∀ e ∈ out, e.isOutput = true := by
  unfold showTimelineHome
  cases env.GetTimelineHome c with
  | error err => exact ⟨[], rfl, by simp⟩
  | ok tl => exact ⟨(showStatuses env tl).events, rfl, showStatuses_output env tl⟩

theorem showNotification_shape (env : Env) (c : Client) :
    ∃ out, (showNotification env c).events = [.getNotifications] ++ out
      ∧ ∀ e ∈ out, e.isOutput = true := by
  unfold showNotification
  cases env.GetNotifications c with
  | error err => exact ⟨[], rfl, by simp⟩
  | ok ns => exact ⟨(showNotificationLoop env ns).events, rfl, showNotificationLoop_output env ns⟩

theorem toot_shape (env : Env) (c : Client) (status : String) :
    ∃ out, (toot env c status).events = [.postStatus status] ++ out
      ∧ ∀ e ∈ out, e.isOutput = true := by
  unfold toot
  cases env.PostStatus c status with
  | error err => exact ⟨[], rfl, by simp⟩
  | ok st => exact ⟨[.println ("toot!: " ++ st.ID)], rfl, by simp [Event.isOutput]⟩

theorem showUserStatuses_shape (env : Env) (c : Client) (username : String) :
    ∃ api out, (showUserStatuses env c username).events = api ++ out
      ∧ (∀ e ∈ out, e.isOutput = true)
      ∧ (api = [.accountsSearch username 1]
          ∨ ∃ id, api = [.accountsSearch username 1, .getAccountStatuses id])
      ∧ ((showUserStatuses env c username).exit = .ok →
          ∃ id, api = [.accountsSearch username 1, .getAccountStatuses id]) := by
  unfold showUserStatuses
  cases env.AccountsSearch c username 1 with
  | error err =>
    exact ⟨[.accountsSearch username 1], [], rfl, by simp, Or.inl rfl, by simp⟩
  | ok users =>
    cases users with
    | nil => exact ⟨[.accountsSearch username 1], [], rfl, by simp, Or.inl rfl, by simp⟩
    | cons u us =>
      simp only [List.getElem?_cons_zero]
      cases env.GetAccountStatuses c u.ID with
      | error err =>
        exact ⟨[.accountsSearch username 1, .getAccountStatuses u.ID], [], by simp, by simp,
          Or.inr ⟨u.ID, rfl⟩, by simp⟩
      | ok statuses =>
        exact ⟨[.accountsSearch username 1, .getAccountStatuses u.ID],
          (showStatuses env statuses).events, rfl, showStatuses_output env statuses,
          Or.inr ⟨u.ID, rfl⟩, fun _ => ⟨u.ID, rfl⟩⟩

/-! ## C1: flag precedence -/

theorem not_post_of_shape {api out : List Event} {s : String}
    (hapi : ∀ e ∈ api, ∀ t, e ≠ Event.postStatus t)
    (hout : ∀ e ∈ out, e.isOutput = true) : Event.postStatus s ∉ api ++ out := by
  intro hmem
  rcases List.mem_append.mp hmem with h | h
  · exact hapi _ h s rfl
  · have := hout _ h
    simp [Event.isOutput] at this

theorem dispatch_cases (env : Env) (c : Client) (fl : Flags) (args : List String) :
    (fl.public = true → dispatch env c fl args = showTimelinePublic env c false)
    ∧ (fl.public = false → fl.local_ = true →
        dispatch env c fl args = showTimelinePublic env c true)
    ∧ (fl.public = false → fl.local_ = false → fl.user ≠ "" →
        dispatch env c fl args = showUserStatuses env c fl.user)
    ∧ (fl.public = false → fl.local_ = false → fl.user = "" → fl.notification = true →
        dispatch env c fl args = showNotification env c)
    ∧ (fl.public = false → fl.local_ = false → fl.user = "" → fl.notification = false →
        args = [] → dispatch env c fl args = showTimelineHome env c)
    ∧ (fl.public = false → fl.local_ = false → fl.user = "" → fl.notification = false →
        args ≠ [] → dispatch env c fl args = toot env c (String.intercalate " " args)) := by
  refine ⟨?_, ?_, ?_, ?_, ?_, ?_⟩
  · intro h; simp [dispatch, h]
  · intro h1 h2; simp [dispatch, h1, h2]
  · intro h1 h2 h3; simp [dispatch, h1, h2, h3]
  · intro h1 h2 h3 h4; simp [dispatch, h1, h2, h3, h4]
  · intro h1 h2 h3 h4 h5
    simp [dispatch, h1, h2, h3, h4, h5]
  · intro h1 h2 h3 h4 h5
    have hlen : args.length ≠ 0 := by
      intro h0; exact h5 (List.length_eq_zero.mp h0)
    simp [dispatch, h1, h2, h3, h4, hlen]

/-- C1: after a successful config load and authentication `main` runs the
dispatcher, and the dispatcher runs exactly the action of the first condition
that holds, in the order `-p` (public timeline, `isLocal = false`), `-l` (local
timeline, `isLocal = true`), non-empty `-u` (user statuses for that value), `-n`
(notifications), no positional argument (home timeline), otherwise post; when
one of the four flags is set no status is posted, whatever the arguments. -/
theorem dispatch_precedence (env : Env) (c : Client) (fl : Flags) (args : List String) :
    (fl.public = true → dispatch env c fl args = showTimelinePublic env c false)
    ∧ (fl.public = false → fl.local_ = true →
        dispatch env c fl args = showTimelinePublic env c true)
    ∧ (fl.public = false → fl.local_ = false → fl.user ≠ "" →
        dispatch env c fl args = showUserStatuses env c fl.user)
    ∧ (fl.public = false → fl.local_ = false → fl.user = "" → fl.notification = true →
        dispatch env c fl args = showNotification env c)
    ∧ (fl.public = false → fl.local_ = false → fl.user = "" → fl.notification = false →
        args = [] → dispatch env c fl args = showTimelineHome env c)
    ∧ (fl.public = false → fl.local_ = false → fl.user = "" → fl.notification = false →
        args ≠ [] → dispatch env c fl args = toot env c (String.intercalate " " args))
    ∧ ((fl.public = true ∨ fl.local_ = true ∨ fl.user ≠ "" ∨ fl.notification = true) →
        ∀ s, Event.postStatus s ∉ (dispatch env c fl args).events)
    ∧ (∀ cfg, (loadConfig env).cfg = some cfg → (loadConfig env).err = none →
        env.Authenticate (clientOf cfg) cfg.UserName cfg.Password = none →
        main env fl args =
          (Run.emit ((loadConfig env).events ++
            [.newClient (clientOf cfg), .authenticate cfg.UserName cfg.Password])).andThen
            (dispatch env (clientOf cfg) fl args)) := by
  obtain ⟨hpub, hloc, husr, hnot, hhome, hpost⟩ := dispatch_cases env c fl args
  refine ⟨hpub, hloc, husr, hnot, hhome, hpost, ?_, ?_⟩
  · intro hflag s
    by_cases h1 : fl.public = true
    · rw [hpub h1]
      obtain ⟨out, hev, hout⟩ := showTimelinePublic_shape env c false
      rw [hev]
      exact not_post_of_shape (by simp) hout
    · have h1f : fl.public = false := by simpa using h1
      by_cases h2 : fl.local_ = true
      · rw [hloc h1f h2]
        obtain ⟨out, hev, hout⟩ := showTimelinePublic_shape env c true
        rw [hev]
        exact not_post_of_shape (by simp) hout
      · have h2f : fl.local_ = false := by simpa using h2
        by_cases h3 : fl.user = ""
        · have h4 : fl.notification = true := by
            rcases hflag with h | h | h | h
            · exact absurd h h1
            · exact absurd h h2
            · exact absurd h3 h
            · exact h
          rw [hnot h1f h2f h3 h4]
          obtain ⟨out, hev, hout⟩ := showNotification_shape env c
          rw [hev]
          exact not_post_of_shape (by simp) hout
        · rw [husr h1f h2f h3]
          obtain ⟨api, out, hev, hout, hapi, _⟩ := showUserStatuses_shape env c fl.user
          rw [hev]
          apply not_post_of_shape _ hout
          rcases hapi with rfl | ⟨id, rfl⟩ <;> simp
  · intro cfg hcfg herr hauth
    exact main_of_load_auth env fl args cfg hcfg herr hauth

/-- C1 in the sample world with every flag set and an argument present: only
the public timeline (not local) is fetched, and nothing is posted. -/
theorem dispatch_precedence_witness :
    dispatch sampleEnv (clientOf sampleConfig) ⟨true, true, "bob", true⟩ ["hello"]
        = showTimelinePublic sampleEnv (clientOf sampleConfig) false
    ∧ Event.postStatus "hello" ∉
        (dispatch sampleEnv (clientOf sampleConfig) ⟨true, true, "bob", true⟩ ["hello"]).events :=
  have h := dispatch_precedence sampleEnv (clientOf sampleConfig) ⟨true, true, "bob", true⟩
    ["hello"]
  ⟨h.1 rfl, h.2.2.2.2.2.2.1 (Or.inl rfl) "hello"⟩

/-! ## C6: the user statuses flow -/

/-- C6: `showUserStatuses` searches accounts with the username as query and a
limit of 1; when the search succeeds with no account the run stops in an
index-out-of-range panic having fetched no statuses and printed nothing; when
it returns at least one account the statuses of the first account's ID are
fetched and, once fetched, rendered by `showStatuses`. -/
theorem showUserStatuses_first_account (env : Env) (c : Client) (username : String) :
    (env.AccountsSearch c username 1 = .ok [] →
      showUserStatuses env c username =
        ⟨[.accountsSearch username 1],
          .panic "runtime error: index out of range [0] with length 0"⟩)
    ∧ (∀ u us, env.AccountsSearch c username 1 = .ok (u :: us) →
        (∃ rest, (showUserStatuses env c username).events =
            [.accountsSearch username 1, .getAccountStatuses u.ID] ++ rest)
        ∧ ∀ statuses, env.GetAccountStatuses c u.ID = .ok statuses →
            showUserStatuses env c username =
              (Run.emit [.accountsSearch username 1, .getAccountStatuses u.ID]).andThen
                (showStatuses env statuses)) := by
  refine ⟨?_, ?_⟩
  · intro h
    simp [showUserStatuses, h]
  · intro u us h
    refine ⟨?_, ?_⟩
    · cases hs : env.GetAccountStatuses c u.ID with
      | error err => exact ⟨[], by simp [showUserStatuses, h, hs]⟩
      | ok statuses =>
        exact ⟨(showStatuses env statuses).events, by
          simp [showUserStatuses, h, hs, Run.emit_andThen_events]⟩
    · intro statuses hs
      simp [showUserStatuses, h, hs]

/-- C6 in the sample world: the search for `carol` returns no account and the
run panics after the search alone; the search for `bob` returns his account and
his statuses are printed. -/
theorem showUserStatuses_first_account_witness :
    showUserStatuses sampleEnv (clientOf sampleConfig) "carol" =
        ⟨[.accountsSearch "carol" 1],
          .panic "runtime error: index out of range [0] with length 0"⟩
    ∧ showUserStatuses sampleEnv (clientOf sampleConfig) "bob" =
        (Run.emit [.accountsSearch "bob" 1, .getAccountStatuses "8"]).andThen
          (showStatuses sampleEnv [bobPost]) :=
  have h1 := showUserStatuses_first_account sampleEnv (clientOf sampleConfig) "carol"
  have h2 := showUserStatuses_first_account sampleEnv (clientOf sampleConfig) "bob"
  ⟨h1.1 rfl, (h2.2 bobPost.Account [] rfl).2 [bobPost] rfl⟩

/-! ## C4: posting -/

theorem intercalate_go_append (sep x y : String) (l : List String) :
    String.intercalate.go (x ++ y) sep l = x ++ String.intercalate.go y sep l := by
  induction l generalizing y with
  | nil => rfl
  | cons a l ih =>
    simp only [String.intercalate.go]
    rw [String.append_assoc, String.append_assoc, ih, String.append_assoc]

theorem intercalate_cons_cons (sep a b : String) (rest : List String) :
    String.intercalate sep (a :: b :: rest) = a ++ sep ++ String.intercalate sep (b :: rest) := by
  simp only [String.intercalate, String.intercalate.go]
  rw [String.append_assoc, intercalate_go_append, intercalate_go_append, String.append_assoc]

theorem apiCalls_loadConfig (env : Env) :
    (loadConfig env).events.filter Event.isApiCall = [] := by
  unfold loadConfig
  cases env.openFile (configPath env) <;> rfl

/-- C4: with no flag set and at least one positional argument, once the config
is loaded and authentication has succeeded, `main` submits exactly one status
whose text is the arguments joined in order with one space between consecutive
arguments and makes no other API call; when the post succeeds the run ends
normally and its whole output is the line `toot!: <id>` with the ID of the
returned post. -/
theorem toot_joined_arguments (env : Env) (fl : Flags) (args : List String) (cfg : config)
    (st : Status)
    (hp : fl.public = false) (hl : fl.local_ = false) (hu : fl.user = "")
    (hn : fl.notification = false) (hargs : args ≠ [])
    (hcfg : (loadConfig env).cfg = some cfg) (herr : (loadConfig env).err = none)
    (hauth : env.Authenticate (clientOf cfg) cfg.UserName cfg.Password = none)
    (hpost : env.PostStatus (clientOf cfg) (String.intercalate " " args) = .ok st) :
    main env fl args =
      Run.emit ((loadConfig env).events ++
        [.newClient (clientOf cfg), .authenticate cfg.UserName cfg.Password,
          .postStatus (String.intercalate " " args), .println ("toot!: " ++ st.ID)])
    ∧ (main env fl args).events.filter Event.isApiCall =
        [.postStatus (String.intercalate " " args)]
    ∧ stdout env (main env fl args).events = "toot!: " ++ st.ID ++ "\n"
    ∧ (∀ a : String, String.intercalate " " [a] = a)
    ∧ (∀ (a b : String) (rest : List String),
        String.intercalate " " (a :: b :: rest) =
          a ++ " " ++ String.intercalate " " (b :: rest)) := by
  have hlen : args.length ≠ 0 := by
    intro h0; exact hargs (List.length_eq_zero.mp h0)
  have hd : dispatch env (clientOf cfg) fl args =
      Run.emit [.postStatus (String.intercalate " " args), .println ("toot!: " ++ st.ID)] := by
    simp [dispatch, hp, hl, hu, hn, hlen, toot, hpost]
  have hmain : main env fl args =
      Run.emit ((loadConfig env).events ++
        [.newClient (clientOf cfg), .authenticate cfg.UserName cfg.Password,
          .postStatus (String.intercalate " " args), .println ("toot!: " ++ st.ID)]) := by
    rw [main_of_load_auth env fl args cfg hcfg herr hauth, hd, Run.emit_andThen_emit]
    simp
  refine ⟨hmain, ?_, ?_, ?_, ?_⟩
  · rw [hmain]
    simp [Run.emit, List.filter_append, apiCalls_loadConfig, List.filter_cons, Event.isApiCall]
  · rw [stdout_main_of_load_auth env fl args cfg hcfg herr hauth, hd]
    simp [Run.emit, stdout, Event.stdout]
  · intro a; rfl
  · intro a b rest
    exact intercalate_cons_cons " " a b rest

/-- C4 in the sample world with the arguments `hello` and `world`: the status
`hello world` is posted and the line `toot!: 103` is printed. -/
theorem toot_joined_arguments_witness :
    (main sampleEnv noFlags ["hello", "world"]).events.filter Event.isApiCall =
        [.postStatus "hello world"]
    ∧ stdout sampleEnv (main sampleEnv noFlags ["hello", "world"]).events = "toot!: 103\n" := by
  have h := toot_joined_arguments sampleEnv noFlags ["hello", "world"] sampleConfig
    ⟨"103", ⟨2023, 1, 5, 0, 0, 0⟩, "hello world", alicePost.Account⟩
    rfl rfl rfl rfl (by simp) (by decide) (by decide) rfl rfl
  exact ⟨h.2.1, h.2.2.1⟩

/-! ## C8: the missing config file -/

/-- C8: the config path is `filepath.Join(home, ".config", "mstdn",
"config.json")` with `home` the value of `HOME`, or of `APPDATA` when `HOME` is
empty on Windows; when opening that path fails, `loadConfig` returns a nil config
and the open error having decoded nothing, and `main` stops through `log.Fatal`
with no client created, no authentication and no action. -/
theorem loadConfig_missing_file (env : Env) (e : String) (fl : Flags) (args : List String)
    (h : env.openFile (configPath env) = .error e) :
    loadConfig env = ⟨[.openFile (configPath env)], none, some e⟩
    ∧ main env fl args = ⟨[.openFile (configPath env)], .fatal ("loadConfig error:" ++ e)⟩
    ∧ (env.getenv "HOME" ≠ "" →
        configPath env =
          env.filepathJoin [env.getenv "HOME", ".config", "mstdn", "config.json"])
    ∧ (env.getenv "HOME" = "" → env.GOOS = "windows" →
        configPath env =
          env.filepathJoin [env.getenv "APPDATA", ".config", "mstdn", "config.json"]) := by
  have hl : loadConfig env = ⟨[.openFile (configPath env)], none, some e⟩ := by
    simp [loadConfig, h]
  refine ⟨hl, ?_, ?_, ?_⟩
  · simp [main, hl]
  · intro hh
    simp [configPath, hh]
  · intro hh hw
    simp [configPath, hh, hw]

/-- C8 in the sample world without its config file: the only effect of `main`
is the failed open of `/home/alice/.config/mstdn/config.json`. -/
theorem loadConfig_missing_file_witness :
    main noFileEnv noFlags ["hello"] =
      ⟨[.openFile "/home/alice/.config/mstdn/config.json"],
        .fatal ("loadConfig error:"
          ++ "open /home/alice/.config/mstdn/config.json: no such file or directory")⟩ := by
  have h := (loadConfig_missing_file noFileEnv
    "open /home/alice/.config/mstdn/config.json: no such file or directory" noFlags ["hello"]
    rfl).2.1
  rw [h]
  decide

/-! ## C7: decoding a valid config file -/

theorem fieldFor_tag (env : Env) (f : Field) : fieldFor env f.tag = some f := by
  cases f <;> rfl

theorem Field.tag_injective {f g : Field} (h : f.tag = g.tag) : f = g := by
  cases f <;> cases g <;> first | rfl | exact absurd h (by decide)

theorem config.get_set (cfg : config) (f g : Field) (v : String) :
    (cfg.set g v).get f = if f = g then v else cfg.get f := by
  cases f <;> cases g <;> rfl

theorem config.ext_get {a b : config} (h : ∀ f : Field, a.get f = b.get f) : a = b := by
  cases a
  cases b
  have h1 := h .UserName
  have h2 := h .Password
  have h3 := h .Server
  have h4 := h .ClientID
  have h5 := h .ClientSecret
  simp only [config.get] at h1 h2 h3 h4 h5
  simp [h1, h2, h3, h4, h5]

theorem decode_members (env : Env) (expected : config) (members : List (String × JSON))
    (honly : ∀ m ∈ members,
      fieldFor env m.1 = none ∨ ∃ f : Field, m = (f.tag, JSON.str (expected.get f))) :
    ∀ acc : config × Option String,
      (members.foldl (decodeMember env) acc).2 = acc.2
      ∧ ∀ f : Field,
          (members.foldl (decodeMember env) acc).1.get f = expected.get f
          ∨ ((members.foldl (decodeMember env) acc).1.get f = acc.1.get f
              ∧ (f.tag, JSON.str (expected.get f)) ∉ members) := by
  induction members with
  | nil =>
    intro acc
    exact ⟨rfl, fun f => Or.inr ⟨rfl, by simp⟩⟩
  | cons m ms ih =>
    intro acc
    have ih2 := ih (fun x hx => honly x (List.mem_cons_of_mem m hx)) (decodeMember env acc m)
    rw [List.foldl_cons]
    rcases honly m (List.mem_cons_self m ms) with hnone | ⟨g, hg⟩
    · have hacc : decodeMember env acc m = acc := by
        simp [decodeMember, hnone]
      rw [hacc] at ih2 ⊢
      refine ⟨ih2.1, fun f => ?_⟩
      rcases ih2.2 f with h | ⟨h, hnot⟩
      · exact Or.inl h
      · refine Or.inr ⟨h, ?_⟩
        intro hmem
        rcases List.mem_cons.mp hmem with heq | hin
        · have : fieldFor env f.tag = none := by rw [← heq] at hnone; exact hnone
          rw [fieldFor_tag] at this
          exact Option.noConfusion this
        · exact hnot hin
    · have hacc : decodeMember env acc m = (acc.1.set g (expected.get g), acc.2) := by
        subst hg
        simp [decodeMember, fieldFor_tag]
      rw [hacc] at ih2 ⊢
      refine ⟨ih2.1, fun f => ?_⟩
      rcases ih2.2 f with h | ⟨h, hnot⟩
      · exact Or.inl h
      · by_cases hfg : f = g
        · subst hfg
          left
          rw [h, config.get_set]
          simp
        · refine Or.inr ⟨?_, ?_⟩
          · rw [h, config.get_set]
            simp [hfg]
          · intro hmem
            rcases List.mem_cons.mp hmem with heq | hin
            · rw [hg] at heq
              exact hfg (Field.tag_injective (congrArg Prod.fst heq))
            · exact hnot hin

/-- C7: when the config file opens and holds a JSON object in which each of the
keys `user_name`, `password`, `server`, `client_id` and `client_secret` occurs
with a string value (and every other member is a key the decoder matches to no
field), `loadConfig` returns a nil error and a config whose fields `UserName`,
`Password`, `Server`, `ClientID` and `ClientSecret` are those five strings,
unchanged. -/
theorem loadConfig_roundtrip (env : Env) (content : String) (members : List (String × JSON))
    (expected : config)
    (hopen : env.openFile (configPath env) = .ok content)
    (hjson : env.jsonValue content = .ok (.object members))
    (hhas : ∀ f : Field, (f.tag, JSON.str (expected.get f)) ∈ members)
    (honly : ∀ m ∈ members,
      fieldFor env m.1 = none ∨ ∃ f : Field, m = (f.tag, JSON.str (expected.get f))) :
    loadConfig env =
      ⟨[.openFile (configPath env), .jsonDecode content], some expected, none⟩ := by
  have hfold := decode_members env expected members honly (config.zero, none)
  have hcfg : (members.foldl (decodeMember env) (config.zero, none)).1 = expected := by
    apply config.ext_get
    intro f
    rcases hfold.2 f with h | ⟨_, hnot⟩
    · exact h
    · exact absurd (hhas f) hnot
  have herr : (members.foldl (decodeMember env) (config.zero, none)).2 = none := hfold.1
  simp [loadConfig, hopen, jsonDecode, hjson, unmarshal, hcfg, herr]

/-- C7 in the sample world: the sample config file decodes to `sampleConfig`. -/
theorem loadConfig_roundtrip_witness :
    loadConfig sampleEnv =
      ⟨[.openFile "/home/alice/.config/mstdn/config.json", .jsonDecode sampleConfigText],
        some sampleConfig, none⟩ :=
  loadConfig_roundtrip sampleEnv sampleConfigText sampleMembers sampleConfig rfl rfl
    (by intro f; cases f <;> simp [sampleMembers, Field.tag, config.get, sampleConfig])
    (by
      intro m hm
      simp only [sampleMembers, List.mem_cons, List.mem_singleton, List.not_mem_nil,
        or_false] at hm
      right
      rcases hm with rfl | rfl | rfl | rfl | rfl
      · exact ⟨.UserName, rfl⟩
      · exact ⟨.Password, rfl⟩
      · exact ⟨.Server, rfl⟩
      · exact ⟨.ClientID, rfl⟩
      · exact ⟨.ClientSecret, rfl⟩)

/-! ## C9: the sequence of external calls -/

theorem dispatch_shape (env : Env) (c : Client) (fl : Flags) (args : List String)
    (hok : (dispatch env c fl args).exit = .ok) :
    ∃ api out, (dispatch env c fl args).events = api ++ out
      ∧ (∀ e ∈ api, e.isApiCall = true) ∧ (∀ e ∈ out, e.isOutput = true)
      ∧ api.length = if fl.public = false ∧ fl.local_ = false ∧ fl.user ≠ "" then 2 else 1 := by
  have hp := dispatch_cases env c fl args
  by_cases h1 : fl.public = true
  · obtain ⟨out, hev, hout⟩ := showTimelinePublic_shape env c false
    exact ⟨_, out, by rw [hp.1 h1, hev], by simp [Event.isApiCall], hout, by simp [h1]⟩
  · have h1f : fl.public = false := by simpa using h1
    by_cases h2 : fl.local_ = true
    · obtain ⟨out, hev, hout⟩ := showTimelinePublic_shape env c true
      exact ⟨_, out, by rw [hp.2.1 h1f h2, hev], by simp [Event.isApiCall], hout, by simp [h2]⟩
    · have h2f : fl.local_ = false := by simpa using h2
      by_cases h3 : fl.user = ""
      · by_cases h4 : fl.notification = true
        · obtain ⟨out, hev, hout⟩ := showNotification_shape env c
          exact ⟨_, out, by rw [hp.2.2.2.1 h1f h2f h3 h4, hev], by simp [Event.isApiCall], hout,
            by simp [h3]⟩
        · have h4f : fl.notification = false := by simpa using h4
          by_cases h5 : args = []
          · obtain ⟨out, hev, hout⟩ := showTimelineHome_shape env c
            exact ⟨_, out, by rw [hp.2.2.2.2.1 h1f h2f h3 h4f h5, hev],
              by simp [Event.isApiCall], hout, by simp [h3]⟩
          · obtain ⟨out, hev, hout⟩ := toot_shape env c (String.intercalate " " args)
            exact ⟨_, out, by rw [hp.2.2.2.2.2 h1f h2f h3 h4f h5, hev],
              by simp [Event.isApiCall], hout, by simp [h3]⟩
      · have hd := hp.2.2.1 h1f h2f h3
        rw [hd] at hok
        obtain ⟨api, out, hev, hout, _, hfull⟩ := showUserStatuses_shape env c fl.user
        obtain ⟨id, hid⟩ := hfull hok
        refine ⟨api, out, by rw [hd, hev], ?_, hout, ?_⟩
        · rw [hid]; simp [Event.isApiCall]
        · rw [hid]; simp [h1f, h2f, h3]

/-- C9 (amended): every invocation that runs to completion performs, in this
order: one config read (the open and the decode of the file), the construction
of the client and one authentication call, then the API calls of the selected
action, then only writes to standard output.  The action makes exactly one API
call, except the user-statuses action (`-u` non-empty without `-p` and `-l`),
which makes two: the account search and the fetch of that account's statuses. -/
theorem main_call_sequence (env : Env) (fl : Flags) (args : List String)
    (hok : (main env fl args).exit = .ok) :
    ∃ content cfg api out,
      (main env fl args).events =
        [.openFile (configPath env), .jsonDecode content, .newClient (clientOf cfg),
          .authenticate cfg.UserName cfg.Password] ++ api ++ out
      ∧ (∀ e ∈ api, e.isApiCall = true) ∧ (∀ e ∈ out, e.isOutput = true)
      ∧ api.length = if fl.public = false ∧ fl.local_ = false ∧ fl.user ≠ "" then 2 else 1 := by
  cases hopen : env.openFile (configPath env) with
  | error e =>
    have hl : loadConfig env = ⟨[.openFile (configPath env)], none, some e⟩ := by
      simp [loadConfig, hopen]
    simp [main, hl] at hok
  | ok content =>
    have hl : loadConfig env =
        ⟨[.openFile (configPath env), .jsonDecode content], some (jsonDecode env content).1,
          (jsonDecode env content).2⟩ := by
      simp [loadConfig, hopen]
    cases hdec : (jsonDecode env content).2 with
    | some e => simp [main, hl, hdec] at hok
    | none =>
      cases hauth : env.Authenticate (clientOf (jsonDecode env content).1)
          (jsonDecode env content).1.UserName (jsonDecode env content).1.Password with
      | some e => simp [main, hl, hdec, hauth] at hok
      | none =>
        have hcfg : (loadConfig env).cfg = some (jsonDecode env content).1 := by rw [hl]
        have herr : (loadConfig env).err = none := by rw [hl]; exact hdec
        have hm := main_of_load_auth env fl args (jsonDecode env content).1 hcfg herr hauth
        rw [hm, Run.emit_andThen_exit] at hok
        obtain ⟨api, out, hev, hapi, hout, hlen⟩ :=
          dispatch_shape env (clientOf (jsonDecode env content).1) fl args hok
        refine ⟨content, (jsonDecode env content).1, api, out, ?_, hapi, hout, hlen⟩
        rw [hm, Run.emit_andThen_events, hev, hl]
        simp

/-- C9 (amended) in the sample world with `-u bob`: the run completes and has
the stated shape. -/
theorem main_call_sequence_witness :
    ∃ content cfg api out,
      (main sampleEnv ⟨false, false, "bob", false⟩ []).events =
        [.openFile (configPath sampleEnv), .jsonDecode content, .newClient (clientOf cfg),
          .authenticate cfg.UserName cfg.Password] ++ api ++ out
      ∧ (∀ e ∈ api, e.isApiCall = true) ∧ (∀ e ∈ out, e.isOutput = true)
      ∧ api.length =
          if (false = false ∧ false = false ∧ "bob" ≠ "") then 2 else 1 :=
  main_call_sequence sampleEnv ⟨false, false, "bob", false⟩ [] (by decide)

/-- C9 as stated fails for `-u bob` in the sample world: the run completes and
makes two API calls, the account search and the fetch of the account's
statuses. -/
theorem two_api_calls_counterexample :
    (main sampleEnv ⟨false, false, "bob", false⟩ []).exit = .ok
    ∧ (main sampleEnv ⟨false, false, "bob", false⟩ []).events.filter Event.isApiCall =
        [.accountsSearch "bob" 1, .getAccountStatuses "8"]
    ∧ ((main sampleEnv ⟨false, false, "bob", false⟩ []).events.filter Event.isApiCall).length
        ≠ 1 := by
  decide

end Mstdn
